import Mathlib

/- Verification of the reconciliation subsystem of IcedCappWatch
   (src/map_province_official_ids.py): the schema-agnostic tree scanner
   (_walk, find_number_by_keys, find_string_by_keys, arrays_with_coords),
   the candidate resolver (best_candidate), the response handling of
   fetch_candidates (_post_with_retry and the candidate-array selection),
   and the identity merge engine (update_store_id). -/

namespace IcedCapp

/-- A parsed JSON value, as the gateway's `r.json()` yields it: Python
`None`, `bool`, numbers, `str`, `list` and `dict` (keys are strings,
in insertion order). -/
inductive J where
  | null
  | bool (b : Bool)
  | num (q : ℚ)
  | str (s : String)
  | arr (xs : List J)
  | obj (kvs : List (String × J))

instance : Inhabited J := ⟨J.null⟩

/-- The source's key sets (module constants `LAT_KEYS`, `LON_KEYS`,
`ID_KEYS`); Python sets, only membership is used. -/
def LAT_KEYS : List String := ["latitude", "lat"]

def LON_KEYS : List String := ["longitude", "lon", "lng"]

def ID_KEYS : List String := ["id", "storeid", "store_id", "storenumber", "store_number"]

mutual

/-- `_walk(d)`: yields every `(key, value)` pair of a dict, the pair first
and then, when the value is itself a dict or list, the pairs inside it;
for a list, the pairs inside each element in order.  Scalars yield
nothing. -/
def pyWalk : J → List (String × J)
  | .obj kvs => pyWalkKVs kvs
  | .arr xs => pyWalkArr xs
  | _ => []

/-- The dict branch of `_walk`: `for k,v in d.items(): yield k,v; ...`. -/
def pyWalkKVs : List (String × J) → List (String × J)
  | [] => []
  | (k, v) :: rest => (k, v) :: (pyWalk v ++ pyWalkKVs rest)

/-- The list branch of `_walk`: `for it in d: yield from _walk(it)`. -/
def pyWalkArr : List J → List (String × J)
  | [] => []
  | x :: rest => pyWalk x ++ pyWalkArr rest

end

/-- Python `s.lower()`, character by character (ASCII case folding; the
key names involved are ASCII). -/
def pyLower (s : String) : String :=
  String.mk (s.toList.map Char.toLower)

/-- Python `s.strip()`: leading and trailing whitespace removed. -/
def pyStrip (s : String) : String :=
  String.mk (((s.toList.dropWhile Char.isWhitespace).reverse.dropWhile
    Char.isWhitespace).reverse)

/-- The value of a list of decimal digit characters. -/
def digitsValN (cs : List Char) : Nat :=
  cs.foldl (fun n c => n * 10 + (c.toNat - 48)) 0

/-- Python `float(s)` on a string, for the ordinary decimal forms
`[+-]digits[.digits]`, `[+-].digits`, `[+-]digits.` after stripping
whitespace (the exotic forms — exponents, `inf`, `nan`, underscores —
are not modelled; the gateway payloads carry plain decimals). -/
def parseDec (s : String) : Option ℚ :=
  let t := (pyStrip s).toList
  let sgn : ℚ := match t with
    | '-' :: _ => -1
    | _ => 1
  let u : List Char := match t with
    | '-' :: r => r
    | '+' :: r => r
    | _ => t
  let ip := u.takeWhile Char.isDigit
  let rest := u.dropWhile Char.isDigit
  match rest with
  | [] => if ip.isEmpty then none else some (sgn * (digitsValN ip : ℚ))
  | '.' :: fp =>
    if fp.all Char.isDigit && !(ip.isEmpty && fp.isEmpty) then
      some (sgn * ((digitsValN ip : ℚ) + (digitsValN fp : ℚ) / (10 : ℚ) ^ fp.length))
    else none
  | _ => none

/-- Python `float(v)` applied to a JSON value: numbers convert, booleans
convert (`float(True) = 1.0`), numeric strings parse, everything else
raises (here: `none`). -/
def tryFloat : J → Option ℚ
  | .num q => some q
  | .bool b => some (if b then 1 else 0)
  | .str s => parseDec s
  | _ => none

/-- Python float `repr` of a rational, used only through `str(v)` below.
CPython prints integral floats as `42.0`; non-integral floats have no
exact rational repr, and any deterministic rendering is faithful for the
callers (only digit runs and non-emptiness are consumed downstream). -/
def qRepr (q : ℚ) : String :=
  if q.den = 1 then toString q.num ++ ".0" else toString q

mutual

/-- Python `repr(v)` for a JSON value (the rendering `str` uses inside
containers). -/
def pyRepr : J → String
  | .null => "None"
  | .bool b => if b then "True" else "False"
  | .num q => qRepr q
  | .str s => "\x27" ++ s ++ "\x27"
  | .arr xs => "[" ++ pyReprArr xs ++ "]"
  | .obj kvs => "\x7b" ++ pyReprKVs kvs ++ "\x7d"

def pyReprArr : List J → String
  | [] => ""
  | [x] => pyRepr x
  | x :: rest => pyRepr x ++ ", " ++ pyReprArr rest

def pyReprKVs : List (String × J) → String
  | [] => ""
  | [(k, v)] => "\x27" ++ k ++ "\x27: " ++ pyRepr v
  | (k, v) :: rest => "\x27" ++ k ++ "\x27: " ++ pyRepr v ++ ", " ++ pyReprKVs rest

end

/-- Python `str(v)`: strings unquoted, containers via `repr`. -/
def pyStr : J → String
  | .str s => s
  | j => pyRepr j

/-- `find_number_by_keys(d, keys)`: walk the tree; at the first string key
whose lowercase form is in `keys` and whose value converts with
`float`, return that number; keys whose values do not convert are
skipped and the walk continues. -/
def find_number_by_keys (d : J) (keys : List String) : Option ℚ :=
  (pyWalk d).findSome? fun kv =>
    if keys.contains (pyLower kv.1) then tryFloat kv.2 else none

/-- `find_string_by_keys(d, keys)`: walk the tree; at the first string key
whose lowercase form is in `keys` and whose value's `str(v).strip()` is
non-empty, return that string. -/
def find_string_by_keys (d : J) (keys : List String) : Option String :=
  (pyWalk d).findSome? fun kv =>
    if keys.contains (pyLower kv.1) then
      let s := pyStrip (pyStr kv.2)
      if s = "" then none else some s
    else none

/-- The maximal runs of consecutive decimal digits of a character list, in
order. -/
def digitRuns : List Char → List (List Char)
  | [] => []
  | c :: cs =>
    let rest := digitRuns cs
    if c.isDigit then
      match cs, rest with
      | d :: _, r :: rs => if d.isDigit then (c :: r) :: rs else [c] :: rest
      | _, _ => [[c]]
    else rest

/-- `extract_numeric_id(s)` inside `best_candidate`: `None` (and the empty
string, falsy in Python) give `None`; otherwise `re.search(r"\d{4,}", s)`,
the leftmost run of four or more consecutive digits, taken greedily —
that is, the first maximal digit run of length at least 4. -/
def extract_numeric_id : Option String → Option String
  | none => none
  | some s =>
    if s = "" then none
    else ((digitRuns s.toList).find? fun r => 4 ≤ r.length).map fun r => String.mk r

/-- The guard of `arrays_with_coords`: `isinstance(o, list) and o and
isinstance(o[0], dict)` followed by the coordinate probe of `o[0]` — a
non-empty list whose first element is a dict yielding both a
latitude-keyed and a longitude-keyed number. -/
def qualifies : List J → Bool
  | J.obj kvs :: _ =>
    (find_number_by_keys (J.obj kvs) LAT_KEYS).isSome &&
      (find_number_by_keys (J.obj kvs) LON_KEYS).isSome
  | _ => false

mutual

/-- The inner `walk(o, path)` of `arrays_with_coords`: collects every
qualifying array together with its dotted path.  A list is probed but
never descended into; only dict values are walked. -/
def awcWalk : J → String → List (String × List J)
  | .arr xs, path => if qualifies xs then [(path, xs)] else []
  | .obj kvs, path => awcWalkKVs kvs path
  | _, _ => []

/-- The dict branch of `walk`: `for k,v in o.items(): walk(v, f"{path}.{k}")`
(the starting path `"data"` is never empty, so the f-string branch always
applies). -/
def awcWalkKVs : List (String × J) → String → List (String × List J)
  | [], _ => []
  | (k, v) :: rest, path => awcWalk v (path ++ "." ++ k) ++ awcWalkKVs rest path

end

/-- `arrays_with_coords(root)`: the qualifying arrays reachable from the
response's data object, with paths rooted at `"data"`. -/
def arrays_with_coords (root : J) : List (String × List J) :=
  awcWalk root "data"

/-- Python dict lookup `d.get(k)` on an insertion-ordered association
list. -/
def dictGet (kvs : List (String × J)) (k : String) : Option J :=
  (kvs.find? fun kv => kv.1 = k).map fun kv => kv.2

/-- The per-key test of the fallback loop, `if key in restaurants and
isinstance(restaurants[key], list)`: the entry under `k` when it is
present and a list. -/
def listAt (rkvs : List (String × J)) (k : String) : Option (List J) :=
  match dictGet rkvs k with
  | some (.arr xs) => some xs
  | _ => none

/-- Lines 201-214 of `fetch_candidates`: when no coordinate-bearing array
was found, look for `root["restaurants"]` and, when it is a dict, return
the first of its `"nodes"`, `"items"`, `"edges"` entries (in the order of
the source's `for key in ["nodes", "items", "edges"]`) that is a list; a
non-dict `root` raises inside the `try` and falls through to `[]`. -/
def wrapper_fallback (root : J) : List J :=
  match root with
  | .obj kvs =>
    match dictGet kvs "restaurants" with
    | some (.obj rkvs) =>
      match listAt rkvs "nodes" with
      | some xs => xs
      | none =>
        match listAt rkvs "items" with
        | some xs => xs
        | none =>
          match listAt rkvs "edges" with
          | some xs => xs
          | none => []
    | _ => []
  | _ => []

/-- Lines 191-214 of `fetch_candidates`: from the parsed data object, the
first coordinate-bearing array if any, else the wrapper fallback. -/
def extract_candidates (root : J) : List J :=
  match arrays_with_coords root with
  | (_, arr) :: _ => arr
  | [] => wrapper_fallback root

/-- A gateway HTTP response as `fetch_candidates` consumes it: the status
code and the parsed JSON body.  The source reads `r.json()` as a dict (a
non-dict body would raise uncaught before any candidate is returned), so
the body is modelled as a dict's key/value list. -/
structure GResponse where
  status : Nat
  body : List (String × J)

/-- `_post_with_retry`'s loop, `for attempt in range(retries+1)`: attempt
`i` either raises a network exception (`none` — `ReadTimeout` or any
`RequestException`, both retried after a backoff sleep) or returns a
response, which ends the loop at once whatever its status.  `fuel` is the
number of loop iterations left. -/
def retry_loop (g : Nat → Option GResponse) : Nat → Nat → Option GResponse
  | _, 0 => none
  | i, fuel + 1 =>
    match g i with
    | some r => some r
    | none => retry_loop g (i + 1) fuel

/-- `_post_with_retry(url, payload, headers, timeout_sec, retries, ...)`:
up to `retries + 1` attempts; `None` when every attempt raised. -/
def post_with_retry (g : Nat → Option GResponse) (retries : Nat) : Option GResponse :=
  retry_loop g 0 (retries + 1)

/-- Lines 169-214 of `fetch_candidates`, from the `_post_with_retry` call
on: all attempts failed, a non-200 status, or a body with an `"errors"`
key each yield `[]` (logged, not retried); otherwise the candidate
array is extracted from `data.get("data", {})`. -/
def fetch_candidates_from (g : Nat → Option GResponse) (retries : Nat) : List J :=
  match post_with_retry g retries with
  | none => []
  | some r =>
    if r.status ≠ 200 then []
    else if r.body.any (fun kv => kv.1 = "errors") then []
    else extract_candidates ((dictGet r.body "data").getD (J.obj []))

/-- The resolver's loop state: `best_id`, `best_d`, `got_coords`. -/
def bcStep (dist : ℚ → ℚ → ℚ → ℚ → ℚ) (lat lon : ℚ)
    (st : Option String × ℚ × Bool) (c : J) : Option String × ℚ × Bool :=
  match extract_numeric_id (find_string_by_keys c ID_KEYS) with
  | none => st
  | some cid =>
    match find_number_by_keys c LAT_KEYS, find_number_by_keys c LON_KEYS with
    | some clat, some clon =>
      let d := dist lat lon clat clon
      if d < st.2.1 then (some cid, d, true) else (st.1, st.2.1, true)
    | _, _ => st

/-- The `for c in cands` loop of `best_candidate`, threading the state from
`best_id, best_d = None, 1e12` and `got_coords = False`. -/
def bcLoop (dist : ℚ → ℚ → ℚ → ℚ → ℚ) (lat lon : ℚ) :
    List J → (Option String × ℚ × Bool) → Option String × ℚ × Bool
  | [], st => st
  | c :: cs, st => bcLoop dist lat lon cs (bcStep dist lat lon st c)

/-- Case 1 of `best_candidate`: `if got_coords and best_id and best_d <=
MATCH_METERS: return best_id, best_d` (Python truthiness of `best_id`
also excludes the empty string). -/
def bc_tier1 (dist : ℚ → ℚ → ℚ → ℚ → ℚ) (M lat lon : ℚ) (cands : List J) :
    Option (String × ℚ) :=
  match bcLoop dist lat lon cands (none, (10 : ℚ) ^ 12, false) with
  | (some cid, bd, true) => if cid ≠ "" ∧ bd ≤ M then some (cid, bd) else none
  | _ => none

/-- Case 2 of `best_candidate`: take the first returned item and extract a
numeric id from it, reporting the fictive distance `float(MATCH_METERS)`. -/
def bc_fallback (M : ℚ) (cands : List J) : Option (String × ℚ) :=
  match cands with
  | [] => none
  | c0 :: _ =>
    (extract_numeric_id (find_string_by_keys c0 ID_KEYS)).map fun cid => (cid, M)

/-- `best_candidate(lat, lon, cands)`.  The source computes distances with
`haversine_m`, a floating-point trigonometric function with no exact
rational embedding; the resolver is verified for an arbitrary distance
function `dist`, and `M` is the configured `MATCH_METERS`. -/
def best_candidate (dist : ℚ → ℚ → ℚ → ℚ → ℚ) (M lat lon : ℚ) (cands : List J) :
    Option (String × ℚ) :=
  match bc_tier1 dist M lat lon cands with
  | some r => some r
  | none => bc_fallback M cands

/-- A row of the `stores` table: the primary key `store_id` and the
descriptive attributes, opaque to the merge engine. -/
structure StoreRow (α : Type) where
  store_id : String
  payload : α
  deriving DecidableEq, Repr

/-- A row of the `checks` table: the `store_id` foreign key and the rest of
the observation, opaque to the merge engine. -/
structure CheckRow (β : Type) where
  store_id : String
  payload : β
  deriving DecidableEq, Repr

/-- The backing store's two tables as the merge engine reads and writes
them. -/
structure DB (α β : Type) where
  stores : List (StoreRow α)
  checks : List (CheckRow β)
  deriving DecidableEq, Repr

/-- `sb.table("stores").select("store_id").eq("store_id", sid).limit(1)`:
is a store row with this id present. -/
def select_store (db : DB α β) (sid : String) : Bool :=
  db.stores.any fun s => s.store_id = sid

/-- `sb.table("checks").update({"store_id": new}).eq("store_id", old)`:
re-point every check referencing `old` to `new`. -/
def update_checks_store_id (db : DB α β) (old new : String) : DB α β :=
  { db with
    checks := db.checks.map fun c =>
      if c.store_id = old then { c with store_id := new } else c }

/-- `sb.table("stores").delete().eq("store_id", old)`: delete the store
rows with this id. -/
def delete_store (db : DB α β) (old : String) : DB α β :=
  { db with stores := db.stores.filter fun s => ¬ s.store_id = old }

/-- `sb.table("stores").update({"store_id": new}).eq("store_id", old)`,
the primary-key rewrite of the no-conflict branch.  Modelled from the
spec: the backing store's schema is not under src/; per §3 the store
enforces the Observation-Record foreign key ("referential integrity
enforced by the backing store schema") and §4.4 requires the rename to
update referencing Observation Records transitively, so the key update
is modelled as cascading to the checks of each store row it rewrites
(checks are untouched when no store row matches `old`). -/
def update_stores_store_id (db : DB α β) (old new : String) : DB α β :=
  { stores := db.stores.map fun s =>
      if s.store_id = old then { s with store_id := new } else s,
    checks :=
      if db.stores.any (fun s => s.store_id = old) then
        (update_checks_store_id db old new).checks
      else db.checks }

/-- `update_store_id(old_id, new_id)` on the happy path (every store call
completes): when the official id already exists, merge — re-point the
checks of `old_id` to `new_id`, then delete the old store row; otherwise
rewrite the primary key in place.  Both branches return `True`. -/
def update_store_id (db : DB α β) (old_id new_id : String) : DB α β × Bool :=
  if select_store db new_id then
    (delete_store (update_checks_store_id db old_id new_id) old_id, true)
  else
    (update_stores_store_id db old_id new_id, true)

/-- The canonical-identifier form, `re.fullmatch(r"\d+", s)` (the driver's
selection of non-official ids, line 308): one or more digits and nothing
else. -/
def isCanonical (s : String) : Bool :=
  s ≠ "" && s.toList.all Char.isDigit

/-- Referential integrity of the backing store: every check references an
existing store row (§3: enforced by the backing store schema). -/
def RI (db : DB α β) : Prop :=
  ∀ c ∈ db.checks, ∃ s ∈ db.stores, s.store_id = c.store_id

instance (db : DB α β) : Decidable (RI db) := by
  unfold RI; infer_instance

/-- A wrapper level of a nested structure: a dict layer carrying this key,
or a list layer. -/
def nestLayer : Option String → J → J
  | some k, d => J.obj [(k, d)]
  | none, d => J.arr [d]

/-- `d` buried under the given wrapper layers, outermost first. -/
def nest (layers : List (Option String)) (d : J) : J :=
  layers.foldr nestLayer d

/-- A wrapper layer that cannot match the key set: a list layer, or a dict
layer whose key is not in the set (case-insensitively). -/
def layerOk (keys : List String) : Option String → Bool
  | some s => !(keys.contains (pyLower s))
  | none => true

theorem pyWalk_nestLayer_some (k : String) (d : J) :
    pyWalk (nestLayer (some k) d) = (k, d) :: pyWalk d := by
  simp [nestLayer, pyWalk, pyWalkKVs]

theorem pyWalk_nestLayer_none (d : J) :
    pyWalk (nestLayer none d) = pyWalk d := by
  simp [nestLayer, pyWalk, pyWalkArr]

/-- Claim C6 — the scanner `find_number_by_keys` (via `_walk`) finds a
value at any nesting depth: burying a field under any chain of dict or
list wrappers whose own keys do not match the key set leaves the lookup
result intact, and the field's key is compared case-insensitively against
the set.  Instantiated at depth 5 with key `"Latitude"` by the witness. -/
theorem find_number_by_keys_depth_independent (keys : List String)
    (layers : List (Option String)) (inner : String) (x : ℚ)
    (hlayers : ∀ L ∈ layers, layerOk keys L = true)
    (hinner : keys.contains (pyLower inner) = true) :
    find_number_by_keys (nest layers (J.obj [(inner, J.num x)])) keys = some x := by
  induction layers with
  | nil =>
    have hmem : pyLower inner ∈ keys := by simpa using hinner
    simp [nest, find_number_by_keys, pyWalk, pyWalkKVs, hmem, tryFloat]
  | cons L rest ih =>
    have hL : layerOk keys L = true := hlayers L (List.mem_cons_self L rest)
    have ihr : find_number_by_keys (nest rest (J.obj [(inner, J.num x)])) keys = some x :=
      ih fun L2 h2 => hlayers L2 (List.mem_cons_of_mem L h2)
    match L with
    | none =>
      simpa [nest, find_number_by_keys, pyWalk_nestLayer_none] using ihr
    | some k =>
      have hk : ¬ pyLower k ∈ keys := by
        have : keys.contains (pyLower k) = false := by simpa [layerOk] using hL
        simpa using this
      simp only [nest, List.foldr_cons] at ihr ⊢
      rw [show nestLayer (some k) (List.foldr nestLayer (J.obj [(inner, J.num x)]) rest)
            = J.obj [(k, List.foldr nestLayer (J.obj [(inner, J.num x)]) rest)] from rfl]
      simp only [find_number_by_keys] at ihr ⊢
      simp only [pyWalk, pyWalkKVs, List.findSome?_cons]
      simp [hk]
      simpa using ihr

/-- Witness for C6: the key `"Latitude"` at depth 5 (four wrapper layers,
dict and list mixed, then the field itself), key set `{latitude, lat}`;
the depth-5 value is returned. -/
theorem find_number_by_keys_depth_independent_witness :
    find_number_by_keys
      (nest [some "data", none, some "store", some "details"]
        (J.obj [("Latitude", J.num (91 / 2))])) LAT_KEYS = some (91 / 2) :=
  find_number_by_keys_depth_independent LAT_KEYS
    [some "data", none, some "store", some "details"] "Latitude" (91 / 2)
    (by decide) (by decide)

/-- What one loop iteration of `best_candidate` measures for a candidate:
its numeric id and distance when it yields an id and both coordinates,
nothing otherwise. -/
def measureOne (dist : ℚ → ℚ → ℚ → ℚ → ℚ) (lat lon : ℚ) (c : J) : Option (String × ℚ) :=
  match extract_numeric_id (find_string_by_keys c ID_KEYS) with
  | none => none
  | some cid =>
    match find_number_by_keys c LAT_KEYS, find_number_by_keys c LON_KEYS with
    | some clat, some clon => some (cid, dist lat lon clat clon)
    | _, _ => none

/-- The measured candidates in input order. -/
def measured (dist : ℚ → ℚ → ℚ → ℚ → ℚ) (lat lon : ℚ) (cands : List J) :
    List (String × ℚ) :=
  cands.filterMap (measureOne dist lat lon)

/-- The earliest pair attaining the minimum distance: a later pair
displaces an earlier one only when its distance is strictly smaller. -/
def firstMin : List (String × ℚ) → Option (String × ℚ)
  | [] => none
  | p :: ps =>
    match firstMin ps with
    | none => some p
    | some q => if q.2 < p.2 then some q else some p

/-- Folding one measurement (or none) into the loop state. -/
def stepMin (bid : Option String) (bd : ℚ) (got : Bool) :
    Option (String × ℚ) → Option String × ℚ × Bool
  | none => (bid, bd, got)
  | some p => (if p.2 < bd then some p.1 else bid, if p.2 < bd then p.2 else bd, true)

theorem bcStep_eq_stepMin (dist : ℚ → ℚ → ℚ → ℚ → ℚ) (lat lon : ℚ)
    (bid : Option String) (bd : ℚ) (got : Bool) (c : J) :
    bcStep dist lat lon (bid, bd, got) c
      = stepMin bid bd got (measureOne dist lat lon c) := by
  unfold bcStep measureOne
  rcases extract_numeric_id (find_string_by_keys c ID_KEYS) with _ | cid
  · simp [stepMin]
  · rcases find_number_by_keys c LAT_KEYS with _ | clat <;>
      rcases find_number_by_keys c LON_KEYS with _ | clon <;>
      simp only [stepMin] <;> try rfl
    split_ifs <;> rfl

theorem stepMin_cons (bid bid2 : Option String) (bd bd2 : ℚ) (got got2 : Bool)
    (p : String × ℚ) (ps : List (String × ℚ))
    (hst : stepMin bid bd got (some p) = (bid2, bd2, got2)) :
    stepMin bid2 bd2 got2 (firstMin ps) = stepMin bid bd got (firstMin (p :: ps)) := by
  obtain ⟨cid0, d0⟩ := p
  simp only [stepMin, Prod.mk.injEq] at hst
  obtain ⟨h1, h2, h3⟩ := hst
  subst h1; subst h2; subst h3
  rcases hq : firstMin ps with _ | ⟨cid1, d1⟩
  · simp [firstMin, hq, stepMin]
  · simp only [firstMin, hq, stepMin]
    by_cases hd0 : d0 < bd <;> by_cases hdd : d1 < d0
    · have hdb : d1 < bd := lt_trans hdd hd0
      simp [hd0, hdd, hdb]
    · simp [hd0, hdd]
    · simp [hd0, hdd]
    · have hdb : ¬ d1 < bd := by
        push_neg at hdd hd0 ⊢
        linarith
      simp [hd0, hdd, hdb]

/-- The `for c in cands` loop computes, from any starting state, the first
minimum of the measured candidates folded into that state. -/
theorem bcLoop_eq_firstMin (dist : ℚ → ℚ → ℚ → ℚ → ℚ) (lat lon : ℚ) :
    ∀ (cands : List J) (bid : Option String) (bd : ℚ) (got : Bool),
    bcLoop dist lat lon cands (bid, bd, got)
      = stepMin bid bd got (firstMin (measured dist lat lon cands)) := by
  intro cands
  induction cands with
  | nil => intro bid bd got; simp [bcLoop, measured, firstMin, stepMin]
  | cons c cs ih =>
    intro bid bd got
    rw [show bcLoop dist lat lon (c :: cs) (bid, bd, got)
          = bcLoop dist lat lon cs (bcStep dist lat lon (bid, bd, got) c) from rfl]
    rw [bcStep_eq_stepMin]
    rcases hm : measureOne dist lat lon c with _ | p
    · have : measured dist lat lon (c :: cs) = measured dist lat lon cs := by
        simp [measured, hm]
      rw [this, show stepMin bid bd got none = (bid, bd, got) from rfl, ih]
    · have hms : measured dist lat lon (c :: cs) = p :: measured dist lat lon cs := by
        simp [measured, hm]
      rw [hms]
      rcases hst : stepMin bid bd got (some p) with ⟨bid2, bd2, got2⟩
      rw [ih]
      exact stepMin_cons bid bid2 bd bd2 got got2 p (measured dist lat lon cs) hst

theorem firstMin_mem : ∀ (l : List (String × ℚ)) (p : String × ℚ),
    firstMin l = some p → p ∈ l := by
  intro l
  induction l with
  | nil => intro p h; simp [firstMin] at h
  | cons q qs ih =>
    intro p h
    rcases hq : firstMin qs with _ | r <;> simp only [firstMin, hq] at h
    · obtain rfl := Option.some.inj h
      exact List.mem_cons_self q qs
    · split_ifs at h
      · obtain rfl := Option.some.inj h
        exact List.mem_cons_of_mem q (ih _ hq)
      · obtain rfl := Option.some.inj h
        exact List.mem_cons_self q qs

theorem measureOne_some (dist : ℚ → ℚ → ℚ → ℚ → ℚ) (lat lon : ℚ) (c : J)
    (p : String × ℚ) (h : measureOne dist lat lon c = some p) :
    extract_numeric_id (find_string_by_keys c ID_KEYS) = some p.1 := by
  unfold measureOne at h
  rcases hx : extract_numeric_id (find_string_by_keys c ID_KEYS) with _ | cid2
  · rw [hx] at h
    exact absurd h (by simp)
  · rw [hx] at h
    rcases hlat : find_number_by_keys c LAT_KEYS with _ | clat
    · rw [hlat] at h
      exact absurd h (by simp)
    · rw [hlat] at h
      rcases hlon : find_number_by_keys c LON_KEYS with _ | clon
      · rw [hlon] at h
        exact absurd h (by simp)
      · rw [hlon] at h
        have h2 : some (cid2, dist lat lon clat clon) = some p := h
        obtain rfl := Option.some.inj h2
        rfl

theorem extract_numeric_id_length (os : Option String) (cid : String)
    (h : extract_numeric_id os = some cid) : 4 ≤ cid.length := by
  rcases os with _ | s <;> simp only [extract_numeric_id] at h
  · exact absurd h (by simp)
  · by_cases hs : s = ""
    · rw [if_pos hs] at h
      exact absurd h (by simp)
    · rw [if_neg hs] at h
      obtain ⟨r, hr, hcid⟩ := Option.map_eq_some'.mp h
      have hdec := List.find?_some hr
      have hlen : 4 ≤ r.length := by simpa using hdec
      rw [← hcid]
      simpa [String.length] using hlen

/-- Claim C5 — Tier 1 of the resolver: the loop tracks the
minimum-distance candidate among those yielding an identifier and both
coordinates with a strict `<` comparison (`firstMin`: on an exact tie the
earlier candidate wins), and `best_candidate` returns exactly that
candidate's id and distance when some candidate was measured and the
minimum distance is within the threshold `M`; when the minimum exceeds
`M`, that pair is not returned.  (`hlt` reflects the source's `1e12`
initial best: every haversine distance is far below it.) -/
theorem best_candidate_tier1 (dist : ℚ → ℚ → ℚ → ℚ → ℚ) (M lat lon : ℚ)
    (cands : List J) (cid : String) (d : ℚ)
    (hmin : firstMin (measured dist lat lon cands) = some (cid, d))
    (hlt : d < 10 ^ 12) :
    (d ≤ M → best_candidate dist M lat lon cands = some (cid, d)) ∧
    (M < d → best_candidate dist M lat lon cands ≠ some (cid, d)) := by
  have hmem : (cid, d) ∈ measured dist lat lon cands := firstMin_mem _ _ hmin
  obtain ⟨c, _, hone⟩ := List.mem_filterMap.mp hmem
  have hid : extract_numeric_id (find_string_by_keys c ID_KEYS) = some cid :=
    measureOne_some dist lat lon c (cid, d) hone
  have hcid : cid ≠ "" := by
    have hl := extract_numeric_id_length _ _ hid
    intro he
    rw [he] at hl
    exact absurd hl (by decide)
  have hloop : bcLoop dist lat lon cands (none, (10 : ℚ) ^ 12, false)
      = (some cid, d, true) := by
    rw [bcLoop_eq_firstMin, hmin]
    simp [stepMin, hlt]
  constructor
  · intro hle
    simp [best_candidate, bc_tier1, hloop, hcid, hle]
  · intro hgt
    have h1 : bc_tier1 dist M lat lon cands = none := by
      simp [bc_tier1, hloop, hcid, not_le.mpr hgt]
    have h2 : best_candidate dist M lat lon cands = bc_fallback M cands := by
      simp [best_candidate, h1]
    intro hcontra
    rw [h2] at hcontra
    rcases cands with _ | ⟨c0, rest⟩
    · simp [bc_fallback] at hcontra
    · simp only [bc_fallback] at hcontra
      rcases he : extract_numeric_id (find_string_by_keys c0 ID_KEYS) with _ | cid0
      · rw [he] at hcontra
        simp at hcontra
      · rw [he] at hcontra
        simp at hcontra
        linarith [hcontra.2]

/-- Witness for C5: two measured candidates at the same distance 2 (an
exact tie); with threshold 400 the earlier one is returned with its
distance. -/
theorem best_candidate_tier1_witness :
    best_candidate (fun _ _ _ _ => 2) 400 45 (-73)
      [J.obj [("id", J.str "111111"), ("lat", J.num 1), ("lon", J.num 2)],
       J.obj [("id", J.str "222222"), ("lat", J.num 3), ("lon", J.num 4)]]
      = some ("111111", 2) :=
  (best_candidate_tier1 (fun _ _ _ _ => 2) 400 45 (-73)
    [J.obj [("id", J.str "111111"), ("lat", J.num 1), ("lon", J.num 2)],
     J.obj [("id", J.str "222222"), ("lat", J.num 3), ("lon", J.num 4)]]
    "111111" 2 rfl (by norm_num)).1 (by norm_num)

/-- Claim C4 — Tier 2 of the resolver: when no candidate yields both a
latitude-keyed and a longitude-keyed value, the result is the first
digit run (of length at least 4) of the first candidate's identifier
field paired with the threshold sentinel `M` — `none` when the first
candidate has no such run. -/
theorem best_candidate_positional_fallback (dist : ℚ → ℚ → ℚ → ℚ → ℚ)
    (M lat lon : ℚ) (c0 : J) (rest : List J)
    (hno : ∀ c ∈ c0 :: rest,
      ¬((find_number_by_keys c LAT_KEYS).isSome ∧ (find_number_by_keys c LON_KEYS).isSome)) :
    best_candidate dist M lat lon (c0 :: rest)
      = (extract_numeric_id (find_string_by_keys c0 ID_KEYS)).map fun cid => (cid, M) := by
  have hm : measured dist lat lon (c0 :: rest) = [] := by
    refine List.filterMap_eq_nil_iff.mpr fun c hc => ?_
    unfold measureOne
    rcases extract_numeric_id (find_string_by_keys c ID_KEYS) with _ | cid
    · rfl
    · rcases hlat : find_number_by_keys c LAT_KEYS with _ | clat
      · simp
      · rcases hlon : find_number_by_keys c LON_KEYS with _ | clon
        · simp
        · exact absurd ⟨by simp [hlat], by simp [hlon]⟩ (hno c hc)
  have hloop : bcLoop dist lat lon (c0 :: rest) (none, (10 : ℚ) ^ 12, false)
      = (none, (10 : ℚ) ^ 12, false) := by
    rw [bcLoop_eq_firstMin, hm]
    rfl
  simp [best_candidate, bc_tier1, hloop, bc_fallback]

/-- Witness for C4 (the spec's Tier-2 example): one candidate with id
`"TH-987654"` and no coordinates; threshold 400 → `("987654", 400)`. -/
theorem best_candidate_positional_fallback_witness :
    best_candidate (fun _ _ _ _ => 0) 400 45 (-73)
      [J.obj [("id", J.str "TH-987654"), ("name", J.str "X")]]
      = some ("987654", 400) :=
  (best_candidate_positional_fallback (fun _ _ _ _ => 0) 400 45 (-73)
    (J.obj [("id", J.str "TH-987654"), ("name", J.str "X")]) [] (by decide)).trans rfl

/-- Claim C10 — the Tier-2 fallback inspects only the first candidate:
when Tier 1 yields nothing and the first candidate carries no run of
four or more digits, the resolver returns `none`, whatever ids the later
candidates carry. -/
theorem best_candidate_fallback_first_only (dist : ℚ → ℚ → ℚ → ℚ → ℚ)
    (M lat lon : ℚ) (c0 : J) (rest : List J)
    (htier : bc_tier1 dist M lat lon (c0 :: rest) = none)
    (hc0 : extract_numeric_id (find_string_by_keys c0 ID_KEYS) = none) :
    best_candidate dist M lat lon (c0 :: rest) = none := by
  simp [best_candidate, htier, bc_fallback, hc0]

/-- Witness for C10: the first candidate's id `"TH-XYZ"` has no digit run,
the second candidate's id `"999999"` does; the resolver still returns
`none`. -/
theorem best_candidate_fallback_first_only_witness :
    best_candidate (fun _ _ _ _ => 0) 400 45 (-73)
      [J.obj [("id", J.str "TH-XYZ")], J.obj [("id", J.str "999999")]] = none ∧
    extract_numeric_id (find_string_by_keys (J.obj [("id", J.str "999999")]) ID_KEYS)
      = some "999999" :=
  ⟨best_candidate_fallback_first_only (fun _ _ _ _ => 0) 400 45 (-73)
    (J.obj [("id", J.str "TH-XYZ")]) [J.obj [("id", J.str "999999")]] (by decide) rfl,
   rfl⟩

/-- Claim C1 fails on the code: with coordinates present on the only
candidate and its distance (5000) far above the threshold (400), the
resolver does not return `none` — it falls through to the Tier-2
positional fallback and returns the first candidate's id with the
sentinel distance, although the source's own docstring describes that
fallback as applying when no coordinates are available.  The claim's
other arm (no digit run anywhere → `none`) does hold. -/
theorem best_candidate_far_coords_returns_fallback :
    best_candidate (fun _ _ _ _ => 5000) 400 45 (-73)
      [J.obj [("id", J.str "111111"), ("lat", J.num 46), ("lon", J.num (-74))]]
      = some ("111111", 400) := by
  decide

/-- Claim C7 as stated fails on the code, in both of its parts: with both
an `items` and a `nodes` wrapper present (and no coordinate-bearing
array), the fallback returns the `nodes` array, not the `items` array;
and a wrapper array at the top level of the data object (not inside a
`restaurants` object) is not found at all. -/
theorem wrapper_fallback_cex :
    extract_candidates
        (J.obj [("restaurants",
          J.obj [("items", J.arr [J.str "A"]), ("nodes", J.arr [J.str "B"])])])
      = [J.str "B"] ∧
    (J.str "B") ≠ (J.str "A") ∧
    extract_candidates (J.obj [("items", J.arr [J.str "A"])]) = [] := by
  refine ⟨rfl, ?_, rfl⟩
  intro h
  exact absurd (J.str.inj h) (by decide)

/-- Claim C7, amended: when no coordinate-bearing array exists, the
fallback looks for arrays under the wrapper keys inside the
`restaurants` entry of the data object, trying `nodes`, then `items`,
then `edges`, and returns empty when none of them is present as a list. -/
theorem wrapper_fallback_priority (kvs rkvs : List (String × J))
    (h0 : arrays_with_coords (J.obj kvs) = [])
    (h1 : dictGet kvs "restaurants" = some (J.obj rkvs)) :
    (∀ ns, listAt rkvs "nodes" = some ns → extract_candidates (J.obj kvs) = ns) ∧
    (listAt rkvs "nodes" = none →
      ∀ xs, listAt rkvs "items" = some xs → extract_candidates (J.obj kvs) = xs) ∧
    (listAt rkvs "nodes" = none → listAt rkvs "items" = none →
      ∀ xs, listAt rkvs "edges" = some xs → extract_candidates (J.obj kvs) = xs) ∧
    (listAt rkvs "nodes" = none → listAt rkvs "items" = none →
      listAt rkvs "edges" = none → extract_candidates (J.obj kvs) = []) := by
  have hx : extract_candidates (J.obj kvs) = wrapper_fallback (J.obj kvs) := by
    simp [extract_candidates, h0]
  refine ⟨?_, ?_, ?_, ?_⟩
  · intro ns hn
    rw [hx]
    simp [wrapper_fallback, h1, hn]
  · intro hn xs hi
    rw [hx]
    simp [wrapper_fallback, h1, hn, hi]
  · intro hn hi xs he
    rw [hx]
    simp [wrapper_fallback, h1, hn, hi, he]
  · intro hn hi he
    rw [hx]
    simp [wrapper_fallback, h1, hn, hi, he]

/-- Witness for the amended C7: `items` listed before `nodes` in the
response, no coordinate-bearing array; the `nodes` array is returned. -/
theorem wrapper_fallback_priority_witness :
    extract_candidates
        (J.obj [("restaurants",
          J.obj [("items", J.arr [J.str "I"]), ("nodes", J.arr [J.str "N"])])])
      = [J.str "N"] :=
  (wrapper_fallback_priority
    [("restaurants", J.obj [("items", J.arr [J.str "I"]), ("nodes", J.arr [J.str "N"])])]
    [("items", J.arr [J.str "I"]), ("nodes", J.arr [J.str "N"])]
    rfl rfl).1 [J.str "N"] rfl

/-- Reachability by descending through dict values only — the descent
`arrays_with_coords`' walk actually performs (it never enters a list's
elements). -/
inductive ObjReach : J → J → Prop
  | refl (j : J) : ObjReach j j
  | step {kvs : List (String × J)} {k : String} {v j : J} :
      (k, v) ∈ kvs → ObjReach v j → ObjReach (J.obj kvs) j

/-- Structural induction over `J` with element-wise hypotheses for the
nested lists. -/
theorem J.recOnTree {motive : J → Prop}
    (hnull : motive .null) (hbool : ∀ b, motive (.bool b))
    (hnum : ∀ q, motive (.num q)) (hstr : ∀ s, motive (.str s))
    (harr : ∀ xs, (∀ x ∈ xs, motive x) → motive (.arr xs))
    (hobj : ∀ kvs, (∀ k v, (k, v) ∈ kvs → motive v) → motive (.obj kvs)) :
    ∀ j, motive j
  | .null => hnull
  | .bool b => hbool b
  | .num q => hnum q
  | .str s => hstr s
  | .arr xs => harr xs fun x hx =>
      J.recOnTree hnull hbool hnum hstr harr hobj x
  | .obj kvs => hobj kvs fun k v hkv =>
      J.recOnTree hnull hbool hnum hstr harr hobj v
termination_by j => sizeOf j
decreasing_by
  · have h1 := List.sizeOf_lt_of_mem hx
    simp only [J.arr.sizeOf_spec]
    omega
  · have h1 := List.sizeOf_lt_of_mem hkv
    have h2 : sizeOf v < sizeOf (k, v) := by
      simp
    simp only [J.obj.sizeOf_spec]
    omega

theorem awcWalkKVs_mem (kvs : List (String × J)) (path : String)
    (pr : String × List J) (h : pr ∈ awcWalkKVs kvs path) :
    ∃ k v, (k, v) ∈ kvs ∧ ∃ p2, pr ∈ awcWalk v p2 := by
  induction kvs with
  | nil => simp [awcWalkKVs] at h
  | cons kv rest ih =>
    obtain ⟨k, v⟩ := kv
    simp only [awcWalkKVs, List.mem_append] at h
    rcases h with h | h
    · exact ⟨k, v, List.mem_cons_self _ _, path ++ "." ++ k, h⟩
    · obtain ⟨k2, v2, hm, p2, hw⟩ := ih h
      exact ⟨k2, v2, List.mem_cons_of_mem _ hm, p2, hw⟩

/-- Everything the walk of `arrays_with_coords` collects is a qualifying
array reachable through dict values only. -/
theorem awcWalk_sound (j : J) : ∀ (path : String) (pr : String × List J),
    pr ∈ awcWalk j path → ObjReach j (J.arr pr.2) ∧ qualifies pr.2 = true := by
  induction j using J.recOnTree with
  | hnull => intro path pr h; simp [awcWalk] at h
  | hbool b => intro path pr h; simp [awcWalk] at h
  | hnum q => intro path pr h; simp [awcWalk] at h
  | hstr s => intro path pr h; simp [awcWalk] at h
  | harr xs ihx =>
    intro path pr h
    simp only [awcWalk] at h
    by_cases hq : qualifies xs = true
    · rw [if_pos hq] at h
      simp only [List.mem_singleton] at h
      subst h
      exact ⟨ObjReach.refl _, hq⟩
    · rw [if_neg (by simpa using hq)] at h
      simp at h
  | hobj kvs ihkv =>
    intro path pr h
    simp only [awcWalk] at h
    obtain ⟨k, v, hm, p2, hw⟩ := awcWalkKVs_mem kvs path pr h
    obtain ⟨hr, hqual⟩ := ihkv k v hm p2 pr hw
    exact ⟨ObjReach.step hm hr, hqual⟩

/-- A qualifying array reachable through dict values is always collected:
the walk of `arrays_with_coords` returns a non-empty list. -/
theorem awcWalk_complete {j target : J} (h : ObjReach j target) :
    ∀ xs, target = J.arr xs → qualifies xs = true → ∀ path, awcWalk j path ≠ [] := by
  induction h with
  | refl j =>
    intro xs hxs hq path
    subst hxs
    simp [awcWalk, hq]
  | @step kvs k v tgt hm hr ih =>
    intro xs hxs hq path
    subst hxs
    have hne : awcWalk v (path ++ "." ++ k) ≠ [] := ih xs rfl hq (path ++ "." ++ k)
    simp only [awcWalk]
    clear hr ih
    induction kvs with
    | nil => simp at hm
    | cons kv2 rest ih2 =>
      obtain ⟨k2, v2⟩ := kv2
      rcases List.mem_cons.mp hm with heq | hm2
      · obtain ⟨rfl, rfl⟩ := Prod.mk.injEq _ _ _ _ |>.mp heq
        simp only [awcWalkKVs]
        intro hcontra
        exact hne (List.append_eq_nil.mp hcontra).1
      · simp only [awcWalkKVs]
        intro hcontra
        exact ih2 hm2 (List.append_eq_nil.mp hcontra).2

/-- Claim C8, amended: `find_record_array` (the `arrays_with_coords` pass
of `fetch_candidates`) returns the first collected array-valued node
whose first element is a mapping yielding both a latitude-keyed and a
longitude-keyed scalar — where the traversal descends through mappings
only: it finds such an array exactly when one is reachable without
passing through an enclosing list. -/
theorem arrays_with_coords_spec (root : J) :
    (∀ pr ∈ arrays_with_coords root, ObjReach root (J.arr pr.2) ∧ qualifies pr.2 = true) ∧
    (arrays_with_coords root = [] ↔
      ∀ xs, ObjReach root (J.arr xs) → qualifies xs = false) ∧
    (∀ p arr rest, arrays_with_coords root = (p, arr) :: rest →
      extract_candidates root = arr) := by
  refine ⟨fun pr hpr => awcWalk_sound root "data" pr hpr, ⟨?_, ?_⟩, ?_⟩
  · intro hempty xs hreach
    by_contra hq
    have hq2 : qualifies xs = true := by
      revert hq
      cases qualifies xs <;> simp
    exact awcWalk_complete hreach xs rfl hq2 "data" hempty
  · intro hall
    by_contra hne
    rcases hh : arrays_with_coords root with _ | ⟨pr, rest⟩
    · exact hne hh
    · have := awcWalk_sound root "data" pr (by rw [show awcWalk root "data" = arrays_with_coords root from rfl, hh]; exact List.mem_cons_self _ _)
      rw [hall pr.2 this.1] at this
      exact absurd this.2 (by simp)
  · intro p arr rest hh
    simp [extract_candidates, hh]

/-- Claim C8's stated scope fails on the code: a qualifying array that is
reachable only through an enclosing list (here `data.a[0]`) is not
collected — the walk never descends into list elements — so
`fetch_candidates` returns no candidates for it. -/
theorem arrays_with_coords_list_cex :
    arrays_with_coords
        (J.obj [("a", J.arr [J.arr [J.obj [("lat", J.num 1), ("lon", J.num 2)]]])])
      = [] ∧
    qualifies [J.obj [("lat", J.num 1), ("lon", J.num 2)]] = true ∧
    extract_candidates
        (J.obj [("a", J.arr [J.arr [J.obj [("lat", J.num 1), ("lon", J.num 2)]]])])
      = [] :=
  ⟨rfl, rfl, rfl⟩

theorem retry_loop_of_first_some (g : Nat → Option GResponse) :
    ∀ (n k i0 : Nat) (r : GResponse), k < n →
    (∀ j < k, g (i0 + j) = none) → g (i0 + k) = some r →
    retry_loop g i0 n = some r := by
  intro n
  induction n with
  | zero => intro k i0 r hk; omega
  | succ m ih =>
    intro k i0 r hk hnone hr
    rcases k with _ | k2
    · simp only [Nat.add_zero] at hr
      simp [retry_loop, hr]
    · have h0 : g i0 = none := by
        have := hnone 0 (Nat.succ_pos k2)
        simpa using this
      simp only [retry_loop, h0]
      refine ih k2 (i0 + 1) r (by omega) ?_ ?_
      · intro j hj
        have := hnone (j + 1) (by omega)
        simpa [Nat.add_assoc, Nat.add_comm 1 j] using this
      · have : i0 + (k2 + 1) = i0 + 1 + k2 := by omega
        rw [← this]
        exact hr

theorem retry_loop_all_none (g : Nat → Option GResponse) :
    ∀ (n i0 : Nat), (∀ j < n, g (i0 + j) = none) → retry_loop g i0 n = none := by
  intro n
  induction n with
  | zero => intro i0 _; rfl
  | succ m ih =>
    intro i0 hnone
    have h0 : g i0 = none := by simpa using hnone 0 (Nat.succ_pos m)
    simp only [retry_loop, h0]
    refine ih (i0 + 1) fun j hj => ?_
    have := hnone (j + 1) (by omega)
    simpa [Nat.add_assoc, Nat.add_comm 1 j] using this

/-- Claim C9 — only network-level failures are retried, and boundedly so:
if the first `i` attempts raise (are retried) and attempt `i ≤ retries`
returns a response that is malformed (non-200 status, or a body carrying
a GraphQL `errors` key), then `_post_with_retry` returns that response
at once, `fetch_candidates` yields the empty candidate list rather than
raising, the outcome is independent of every attempt after `i` (the
malformed response is never retried), and a transport whose first
`retries + 1` attempts all raise yields `None` (the attempt count is
bounded). -/
theorem fetch_candidates_malformed (g : Nat → Option GResponse)
    (retries i : Nat) (r : GResponse)
    (hi : i ≤ retries)
    (hprev : ∀ j < i, g j = none)
    (hr : g i = some r)
    (hbad : r.status ≠ 200 ∨ r.body.any (fun kv => kv.1 = "errors") = true) :
    post_with_retry g retries = some r ∧
    fetch_candidates_from g retries = [] ∧
    (∀ g2 : Nat → Option GResponse, (∀ j ≤ i, g2 j = g j) →
      post_with_retry g2 retries = some r) ∧
    (∀ g3 : Nat → Option GResponse, (∀ j ≤ retries, g3 j = none) →
      post_with_retry g3 retries = none) := by
  have hpost : post_with_retry g retries = some r := by
    refine retry_loop_of_first_some g (retries + 1) i 0 r (by omega) ?_ ?_
    · intro j hj
      simpa using hprev j hj
    · simpa using hr
  refine ⟨hpost, ?_, ?_, ?_⟩
  · simp only [fetch_candidates_from, hpost]
    rcases hbad with hbad | hbad
    · simp [hbad]
    · by_cases hst : r.status = 200
      · simp [hst, hbad]
      · simp [hst]
  · intro g2 hagree
    refine retry_loop_of_first_some g2 (retries + 1) i 0 r (by omega) ?_ ?_
    · intro j hj
      rw [Nat.zero_add, hagree j (by omega)]
      exact hprev j hj
    · rw [Nat.zero_add, hagree i (le_refl i)]
      exact hr
  · intro g3 hnone
    exact retry_loop_all_none g3 (retries + 1) 0 fun j hj => by
      rw [Nat.zero_add]
      exact hnone j (by omega)

/-- The transport trace of the C9 witness: attempt 0 times out, attempt 1
returns HTTP 500. -/
def gWitness : Nat → Option GResponse :=
  fun j => if j = 0 then none else some ⟨500, []⟩

/-- Witness for C9: with the trace `gWitness` and 4 configured retries,
the HTTP-500 response of attempt 1 ends the loop and `fetch_candidates`
returns the empty list. -/
theorem fetch_candidates_malformed_witness :
    post_with_retry gWitness 4 = some ⟨500, []⟩ ∧
    fetch_candidates_from gWitness 4 = [] :=
  have h := fetch_candidates_malformed gWitness 4 1 ⟨500, []⟩ (by omega)
    (fun j hj => by
      have hj0 : j = 0 := by omega
      rw [hj0]
      rfl)
    rfl (Or.inl (by decide))
  ⟨h.1, h.2.1⟩

theorem list_map_id {γ : Type} (l : List γ) (f : γ → γ) (h : ∀ x ∈ l, f x = x) :
    l.map f = l := by
  induction l with
  | nil => rfl
  | cons a t ih =>
    rw [List.map_cons, h a (List.mem_cons_self a t),
      ih fun x hx => h x (List.mem_cons_of_mem a hx)]

theorem list_filter_id {γ : Type} (l : List γ) (p : γ → Bool) (h : ∀ x ∈ l, p x = true) :
    l.filter p = l := by
  induction l with
  | nil => rfl
  | cons a t ih =>
    rw [List.filter_cons_of_pos (h a (List.mem_cons_self a t)),
      ih fun x hx => h x (List.mem_cons_of_mem a hx)]

/-- Claim C2 — the merge leaves no Observation Record orphaned: starting
from a store satisfying referential integrity, after `update_store_id`
every check references an existing store row, and no check references
`old_id` any more (in the conflict branch the checks are re-pointed
before the old row is deleted; in the rename branch the cascading key
update re-points them with the row). -/
theorem update_store_id_no_orphans {α β : Type} (db : DB α β) (old_id new_id : String)
    (hne : old_id ≠ new_id) (hcanon : isCanonical new_id = true) (hri : RI db) :
    RI (update_store_id db old_id new_id).1 ∧
    ∀ c ∈ (update_store_id db old_id new_id).1.checks, c.store_id ≠ old_id := by
  by_cases hex : select_store db new_id
  · -- conflict branch: re-point checks, then delete the old row
    have hdb : (update_store_id db old_id new_id).1
        = delete_store (update_checks_store_id db old_id new_id) old_id := by
      simp [update_store_id, hex]
    obtain ⟨s0, hs0mem, hs0⟩ : ∃ s ∈ db.stores, s.store_id = new_id := by
      simpa [select_store] using hex
    rw [hdb]
    constructor
    · intro c hc
      simp only [delete_store, update_checks_store_id, List.mem_map] at hc
      obtain ⟨c0, hc0, rfl⟩ := hc
      by_cases h0 : c0.store_id = old_id
      · refine ⟨s0, ?_, by simp [h0, hs0]⟩
        simp only [delete_store, update_checks_store_id, List.mem_filter]
        exact ⟨hs0mem, by simp [hs0]; exact fun h => hne h.symm⟩
      · obtain ⟨s, hsmem, hs⟩ := hri c0 hc0
        refine ⟨s, ?_, by simp [h0, hs]⟩
        simp only [delete_store, update_checks_store_id, List.mem_filter]
        exact ⟨hsmem, by simp [hs]; exact h0⟩
    · intro c hc
      simp only [delete_store, update_checks_store_id, List.mem_map] at hc
      obtain ⟨c0, _, rfl⟩ := hc
      by_cases h0 : c0.store_id = old_id
      · simp [h0]
        exact fun h => hne h.symm
      · simp [h0]
  · -- rename branch: cascading primary-key update
    have hdb : (update_store_id db old_id new_id).1
        = update_stores_store_id db old_id new_id := by
      simp [update_store_id, hex]
    rw [hdb]
    by_cases hany : db.stores.any fun s => s.store_id = old_id
    · obtain ⟨s1, hs1mem, hs1⟩ : ∃ s ∈ db.stores, s.store_id = old_id := by
        simpa using hany
      constructor
      · intro c hc
        simp only [update_stores_store_id, update_checks_store_id, hany, if_pos,
          List.mem_map] at hc
        rcases hc with ⟨c0, hc0, rfl⟩
        by_cases h0 : c0.store_id = old_id
        · refine ⟨{ s1 with store_id := new_id }, ?_, by simp [h0]⟩
          simp only [update_stores_store_id, List.mem_map]
          exact ⟨s1, hs1mem, by simp [hs1]⟩
        · obtain ⟨s, hsmem, hs⟩ := hri c0 hc0
          refine ⟨s, ?_, by simp [h0, hs]⟩
          simp only [update_stores_store_id, List.mem_map]
          refine ⟨s, hsmem, ?_⟩
          rw [if_neg (by rw [hs]; exact h0)]
      · intro c hc
        simp only [update_stores_store_id, update_checks_store_id, hany, if_pos,
          List.mem_map] at hc
        rcases hc with ⟨c0, _, rfl⟩
        by_cases h0 : c0.store_id = old_id
        · simp [h0]
          exact fun h => hne h.symm
        · simp [h0]
    · have hnone : ∀ s ∈ db.stores, ¬ s.store_id = old_id := by
        simpa using hany
      have hchecks : (update_stores_store_id db old_id new_id).checks = db.checks := by
        simp only [update_stores_store_id]
        rw [if_neg (by simpa using hany)]
      constructor
      · intro c hc
        rw [hchecks] at hc
        obtain ⟨s, hsmem, hs⟩ := hri c hc
        refine ⟨s, ?_, hs⟩
        simp only [update_stores_store_id, List.mem_map]
        refine ⟨s, hsmem, ?_⟩
        rw [if_neg (hnone s hsmem)]
      · intro c hc
        rw [hchecks] at hc
        obtain ⟨s, hsmem, hs⟩ := hri c hc
        rw [← hs]
        exact fun h => hnone s hsmem h

/-- Witness for C2: merging `kgl_A1` into the already-present canonical
row `500001` with checks on both; referential integrity holds afterwards. -/
theorem update_store_id_no_orphans_witness :
    RI (update_store_id
      (DB.mk [⟨"kgl_A1", 0⟩, ⟨"500001", 1⟩] [⟨"kgl_A1", 10⟩, ⟨"500001", 11⟩] : DB Nat Nat)
      "kgl_A1" "500001").1 :=
  (update_store_id_no_orphans
    (DB.mk [⟨"kgl_A1", 0⟩, ⟨"500001", 1⟩] [⟨"kgl_A1", 10⟩, ⟨"500001", 11⟩])
    "kgl_A1" "500001" (by decide) (by decide) (by decide)).1

theorem DB_ext {α β : Type} {a b : DB α β} (hs : a.stores = b.stores)
    (hc : a.checks = b.checks) : a = b := by
  cases a
  cases b
  simp_all

/-- Re-pointing the checks a second time changes nothing: after one pass
no check references `old_id` any more. -/
theorem checks_map_idem {β : Type} (old_id new_id : String) (hne : old_id ≠ new_id)
    (l : List (CheckRow β)) :
    ((l.map fun c => if c.store_id = old_id then { c with store_id := new_id } else c).map
        fun c => if c.store_id = old_id then { c with store_id := new_id } else c)
      = l.map fun c => if c.store_id = old_id then { c with store_id := new_id } else c := by
  apply list_map_id
  intro x hx
  simp only [List.mem_map] at hx
  obtain ⟨c0, _, rfl⟩ := hx
  by_cases h0 : c0.store_id = old_id
  · rw [if_pos h0]
    rw [if_neg (by simpa using Ne.symm hne)]
  · rw [if_neg h0, if_neg h0]

/-- Claim C3 — `update_store_id` is idempotent: running the merge a second
time for the same `(old_id, new_id)` pair is a no-op returning success;
in particular no Observation Record is duplicated or lost and every
Location Record is left unchanged by the second run. -/
theorem update_store_id_idempotent {α β : Type} (db : DB α β) (old_id new_id : String) :
    update_store_id (update_store_id db old_id new_id).1 old_id new_id
      = ((update_store_id db old_id new_id).1, true) := by
  by_cases hex : select_store db new_id
  · -- first run took the conflict branch
    have hdb1 : (update_store_id db old_id new_id).1
        = delete_store (update_checks_store_id db old_id new_id) old_id := by
      simp [update_store_id, hex]
    rw [hdb1]
    by_cases hoe : old_id = new_id
    · -- degenerate pair: the row was deleted, the second run renames nothing
      subst hoe
      have hsel : ¬ select_store
          (delete_store (update_checks_store_id db old_id old_id) old_id) old_id := by
        simp only [select_store, delete_store, update_checks_store_id, List.any_eq_true,
          not_exists]
        intro s hs
        simp only [List.mem_filter] at hs
        have h1 : ¬ s.store_id = old_id := by simpa using hs.1.2
        exact h1 (by simpa using hs.2)
      have hupd : update_store_id
          (delete_store (update_checks_store_id db old_id old_id) old_id) old_id old_id
          = (update_stores_store_id
              (delete_store (update_checks_store_id db old_id old_id) old_id)
              old_id old_id, true) := by
        simp [update_store_id, hsel]
      rw [hupd]
      refine congrArg (fun d => (d, true)) (DB_ext ?_ ?_)
      · simp only [update_stores_store_id]
        apply list_map_id
        intro s _
        by_cases h0 : s.store_id = old_id
        · rw [if_pos h0]
          cases s
          simp_all
        · rw [if_neg h0]
      · simp only [update_stores_store_id]
        rw [if_neg ?_]
        intro hcontra
        simp only [List.any_eq_true] at hcontra
        obtain ⟨s, hs, hsid⟩ := hcontra
        simp only [delete_store, update_checks_store_id, List.mem_filter] at hs
        exact absurd hsid (by simpa using hs.2)
    · -- the canonical row survives: the second run is the conflict branch again
      obtain ⟨s0, hs0mem, hs0⟩ : ∃ s ∈ db.stores, s.store_id = new_id := by
        simpa [select_store] using hex
      have hsel : select_store
          (delete_store (update_checks_store_id db old_id new_id) old_id) new_id := by
        simp only [select_store, delete_store, update_checks_store_id, List.any_eq_true]
        refine ⟨s0, ?_, by simpa using hs0⟩
        simp only [List.mem_filter]
        exact ⟨hs0mem, by simp [hs0]; exact fun h => hoe h.symm⟩
      have hupd : update_store_id
          (delete_store (update_checks_store_id db old_id new_id) old_id) old_id new_id
          = (delete_store (update_checks_store_id
              (delete_store (update_checks_store_id db old_id new_id) old_id)
              old_id new_id) old_id, true) := by
        simp [update_store_id, hsel]
      rw [hupd]
      refine congrArg (fun d => (d, true)) (DB_ext ?_ ?_)
      · simp only [delete_store, update_checks_store_id]
        apply list_filter_id
        intro s hs
        exact (List.mem_filter.mp hs).2
      · simp only [delete_store, update_checks_store_id]
        exact checks_map_idem old_id new_id hoe db.checks
  · -- first run took the rename branch
    have hdb1 : (update_store_id db old_id new_id).1
        = update_stores_store_id db old_id new_id := by
      simp [update_store_id, hex]
    rw [hdb1]
    by_cases hany : db.stores.any fun s => s.store_id = old_id
    · -- the row existed and was renamed: the second run is the conflict branch
      obtain ⟨s1, hs1mem, hs1⟩ : ∃ s ∈ db.stores, s.store_id = old_id := by
        simpa using hany
      have hoe : old_id ≠ new_id := by
        intro h
        apply hex
        simp only [select_store, List.any_eq_true]
        exact ⟨s1, hs1mem, by simp [hs1, h]⟩
      have hch1 : (update_stores_store_id db old_id new_id).checks
          = db.checks.map fun c =>
              if c.store_id = old_id then { c with store_id := new_id } else c := by
        simp [update_stores_store_id, update_checks_store_id, hany]
      have hsel : select_store (update_stores_store_id db old_id new_id) new_id := by
        simp only [select_store, update_stores_store_id, List.any_eq_true]
        refine ⟨{ s1 with store_id := new_id }, ?_, by simp⟩
        simp only [List.mem_map]
        exact ⟨s1, hs1mem, by simp [hs1]⟩
      have hupd : update_store_id (update_stores_store_id db old_id new_id) old_id new_id
          = (delete_store (update_checks_store_id
              (update_stores_store_id db old_id new_id) old_id new_id) old_id, true) := by
        simp [update_store_id, hsel]
      rw [hupd]
      refine congrArg (fun d => (d, true)) (DB_ext ?_ ?_)
      · simp only [delete_store, update_checks_store_id, update_stores_store_id]
        apply list_filter_id
        intro s hs
        simp only [List.mem_map] at hs
        obtain ⟨s2, _, rfl⟩ := hs
        by_cases h0 : s2.store_id = old_id
        · rw [if_pos h0]
          simpa using Ne.symm hoe
        · rw [if_neg h0]
          simpa using h0
      · simp only [delete_store, update_checks_store_id]
        rw [hch1, checks_map_idem old_id new_id hoe db.checks]
    · -- no row to rename: the first run already changed nothing
      have hnone : ∀ s ∈ db.stores, ¬ s.store_id = old_id := by
        simpa using hany
      have hstores : (update_stores_store_id db old_id new_id).stores = db.stores := by
        simp only [update_stores_store_id]
        apply list_map_id
        intro s hs
        rw [if_neg (hnone s hs)]
      have hchecks : (update_stores_store_id db old_id new_id).checks = db.checks := by
        simp only [update_stores_store_id]
        rw [if_neg (by simpa using hany)]
      have hid : update_stores_store_id db old_id new_id = db := DB_ext hstores hchecks
      rw [hid]
      have hupd : update_store_id db old_id new_id
          = (update_stores_store_id db old_id new_id, true) := by
        simp [update_store_id, hex]
      rw [hupd, hid]

end IcedCapp
